import Mathlib

/-!
Shallow embedding of the IRMAseal/PostGuard envelope core
(repository encryption4all/irmaseal) and proofs about its
natural-language specification.

Conventions of the embedding:
* Rust byte values are `Nat` together with explicit `< 256` bounds where
  the bounds matter.
* Fallible Rust code (functions returning `Result`, panicking slice
  copies) becomes `Except Error` or `Option`.
* External crates (the CGW-KV KEM of the ibe crate, the sha3 digest, the
  rmp_serde and serde_json data-format crates) are consumed by the
  repository as black boxes; they are modelled as structures bundling
  their operations with the contracts the repository relies on, and each
  theorem quantifying over such a structure is instantiated on a concrete
  executable instance in its witness.
-/

namespace Irmaseal

/-- The error kinds of the irmaseal-core crate that appear in the sources
under src/ (the Error enum itself lives in lib.rs, which is not under
src/; the variants are those constructed by metadata.rs, sealer.rs,
handlers/start.rs and util.rs). -/
inductive Error where
  | FormatViolation
  | ConstraintViolation
  | Kem
  | ValidityError
deriving DecidableEq

/-- An attribute: a type with an optional value (src usage in api.rs,
encrypt.rs; the struct itself is in identity.rs which is not under src/,
modelled from the spec data model). -/
structure Attribute where
  atype : String
  value : Option String
deriving DecidableEq

/-- A full recipient policy: timestamp plus conjunction of attributes
(identity.rs is not under src/; modelled from the spec data model, field
names as used by encrypt.rs and test.rs). -/
structure Policy where
  timestamp : Nat
  con : List Attribute
deriving DecidableEq

/-- A hidden attribute as used by decrypt.rs: the type is kept, the value
is hidden (identity.rs is not under src/, modelled from the spec). -/
structure HiddenAttribute where
  atype : String
  hiddenValue : Option String
deriving DecidableEq

/-- A policy with all attribute values stripped (spec data model). -/
structure HiddenPolicy where
  timestamp : Nat
  con : List HiddenAttribute
deriving DecidableEq

/-- Modelled from the spec: Policy::to_hidden (identity.rs is not under
src/). Projects every attribute of the policy to a hidden attribute with
the same type and no value; the timestamp is preserved. -/
def Policy.toHidden (p : Policy) : HiddenPolicy :=
  ⟨p.timestamp, p.con.map (fun a => ⟨a.atype, none⟩)⟩

/-! ### Validity clamping (src/pg-pkg/src/handlers/start.rs) -/

/-- Maximum allowed validity in seconds of a JWT (1 day),
src/pg-pkg/src/handlers/start.rs line 7. -/
def MAX_VALIDITY : Nat := 60 * 60 * 24

/-- Maximum allowed validity in seconds of a JWT used when signing
(100 days), src/pg-pkg/src/handlers/start.rs line 10. -/
def MAX_VALIDITY_SIGN : Nat := 60 * 60 * 24 * 100

/-- Default validity if no validity is specified (5 minutes),
src/pg-pkg/src/handlers/start.rs line 13. -/
def DEFAULT_VALIDITY : Nat := 60 * 5

/-- The validity clamp of the start handler,
src/pg-pkg/src/handlers/start.rs lines 41-45: a requested validity over
the cap for the request kind is a ValidityError, any other requested
validity is accepted verbatim, and an absent validity yields the
default. -/
def startValidity (isSigning : Bool) (validity : Option Nat) : Except Error Nat :=
  match validity with
  | some v =>
    if (isSigning = false ∧ MAX_VALIDITY < v) ∨ (isSigning = true ∧ MAX_VALIDITY_SIGN < v) then
      .error .ValidityError
    else
      .ok v
  | none => .ok DEFAULT_VALIDITY

/-! ### Key derivation (src/irmaseal-core/src/util.rs) -/

/-- The symmetric key set produced by the KDF,
src/irmaseal-core/src/util.rs lines 6-10. Key lengths are kept as plain
lists so that the length forced by the code can be stated. -/
structure KeySet where
  aes_key : List Nat
  mac_key : List Nat
deriving DecidableEq

/-- Rust slice::copy_from_slice into a destination of length dstLen:
succeeds exactly when the source has the same length, and panics
(modelled as none) otherwise. -/
def copyFromSlice (dstLen : Nat) (src : List Nat) : Option (List Nat) :=
  if src.length = dstLen then some src else none

/-- derive_keys from src/irmaseal-core/src/util.rs lines 20-36: hash the
canonical bytes of the secret with SHA3-512 (the external sha3 crate, passed
in as sha3_512), split the digest at KEY_SIZE, and copy the two pieces
into the KEY_SIZE-sized local arrays aes_key and mac_key (source lines
25-26 declare both locals with length KEY_SIZE; the KeySet field
mac_key has type with length MAC_SIZE, so the source compiles only when
MAC_SIZE = KEY_SIZE). KEY_SIZE is a parameter because constants.rs is
not under src/. -/
def derive_keys_kdf (KEY_SIZE : Nat) (sha3_512 : List Nat → List Nat)
    (key : List Nat) : Option KeySet := do
  let buf := sha3_512 key
  let aes ← copyFromSlice KEY_SIZE (buf.take KEY_SIZE)
  let mac ← copyFromSlice KEY_SIZE (buf.drop KEY_SIZE)
  some ⟨aes, mac⟩

/-- A concrete executable stand-in for the external SHA3-512 digest: any
function with 64-byte output exercises the splitting logic of
derive_keys, which is all the repository code under scrutiny. -/
def demoSha3 : List Nat → List Nat := fun _ => List.range 64

/-! ### PKG session polling (src/irmaseal-cli/src/decrypt.rs) -/

/-- Session statuses distinguished by the polling loop and the spec:
DoneValid is the success state tested on decrypt.rs line 41; the others
are the transient (Pending, Connected) and terminal (Cancelled, Timeout,
DoneInvalid) states named by the spec. -/
inductive KeyStatus where
  | DoneValid
  | DoneInvalid
  | Pending
  | Connected
  | Cancelled
  | Timeout
deriving DecidableEq

/-- Proof status of an attribute disclosure (api.rs). -/
inductive ProofStatus where
  | Valid
  | Invalid
deriving DecidableEq

/-- KeyResponse from src/irmaseal-core/src/api.rs lines 35-46: session
status, optional proof status, and the key, populated only on success. -/
structure KeyResponse (K : Type) where
  status : KeyStatus
  proofStatus : Option ProofStatus
  key : Option K
deriving DecidableEq

/-- Observable trace of one wait_on_session run: the returned response
(if any), the number of poll requests issued, and the list of delays
slept (in nanoseconds). -/
structure PollTrace (K : Type) where
  result : Option (KeyResponse K)
  polls : Nat
  delaysNs : List Nat
deriving DecidableEq

/-- The body of the polling loop of wait_on_session,
src/irmaseal-cli/src/decrypt.rs lines 38-48, with the attempt budget as
fuel and the attempt index as a parameter. Each iteration issues one
poll; a client error propagates None immediately (the ok()? on line 39);
a DoneValid status returns the response; any other status sleeps
Duration::new(0, 500_000_000) and retries. -/
def waitOnSessionAux (responses : Nat → Except Unit (KeyResponse K)) :
    Nat → Nat → PollTrace K
  | _, 0 => ⟨none, 0, []⟩
  | i, fuel + 1 =>
    match responses i with
    | .error _ => ⟨none, 1, []⟩
    | .ok r =>
      if r.status = KeyStatus.DoneValid then ⟨some r, 1, []⟩
      else
        ⟨(waitOnSessionAux responses (i + 1) fuel).result,
         (waitOnSessionAux responses (i + 1) fuel).polls + 1,
         500000000 :: (waitOnSessionAux responses (i + 1) fuel).delaysNs⟩

/-- wait_on_session from src/irmaseal-cli/src/decrypt.rs lines 30-49:
poll the PKG starting at attempt 0 with a budget of 120 attempts. -/
def waitOnSession (responses : Nat → Except Unit (KeyResponse K)) : PollTrace K :=
  waitOnSessionAux responses 0 120

/-- Concrete response sequence: the first poll reports the terminal
status Cancelled, every later poll reports DoneValid with a key. -/
def c5responses : Nat → Except Unit (KeyResponse Nat) :=
  fun i =>
    if i = 0 then .ok ⟨KeyStatus.Cancelled, none, none⟩
    else .ok ⟨KeyStatus.DoneValid, some ProofStatus.Valid, some 42⟩

/-- Concrete response sequence: every poll reports the transient status
Pending. -/
def c8responses : Nat → Except Unit (KeyResponse Nat) :=
  fun _ => .ok ⟨KeyStatus.Pending, none, none⟩

/-! ### Stream sealer segmentation (src/irmaseal-core/src/stream/rust/sealer.rs) -/

/-- AES-GCM authentication tag size in bytes (constants.rs is not under
src/; the spec fixes the tag at 16 bytes). -/
def TAG_SIZE : Nat := 16

/-- Modelled from the spec: the default segment size constant
SYMMETRIC_CRYPTO_DEFAULT_CHUNK (constants.rs is not under src/; the spec
fixes the default at 65536). -/
def SYMMETRIC_CRYPTO_DEFAULT_CHUNK : Nat := 65536

/-- The read-encrypt-write loop of seal,
src/irmaseal-core/src/stream/rust/sealer.rs lines 59-74, abstracted over
the AEAD: the loop fills a buffer of segmentSize bytes from the
plaintext; every full buffer is encrypted as a non-final segment
(encrypt_next_in_place) and the trailing short read as the final segment
(encrypt_last_in_place). The result lists the plaintext of each emitted
segment together with its final flag, in emission order. -/
def sealSegments (segmentSize : Nat) (hs : 0 < segmentSize) (pt : List Nat) :
    List (List Nat × Bool) :=
  if _hlt : pt.length < segmentSize then
    [(pt, true)]
  else
    (pt.take segmentSize, false) :: sealSegments segmentSize hs (pt.drop segmentSize)
termination_by pt.length
decreasing_by
  simp only [List.length_drop]
  omega

/-- The ciphertext segments written by seal: each AEAD call appends a
16-byte tag to its segment, so segment i of the ciphertext stream is
(plaintext length + TAG_SIZE) bytes, flagged final exactly when the AEAD
call was encrypt_last_in_place. -/
def sealCiphertextSegments (segmentSize : Nat) (hs : 0 < segmentSize)
    (pt : List Nat) : List (Nat × Bool) :=
  (sealSegments segmentSize hs pt).map (fun seg => (seg.1.length + TAG_SIZE, seg.2))

/-! ### Constant-time artifact codec (src/irmaseal-core/src/artifacts.rs)

The padded standard Base64 encoding of the base64ct crate, used by
impl_serialize_pk/usk and impl_deserialize_pk/usk, is implemented
concretely: padded RFC 4648 base64 with the canonicity checks base64ct
performs (trailing bits of the last symbol before padding must be zero,
padding only at the end). -/

/-- The standard base64 alphabet in index order. -/
def b64Alphabet : List Char :=
  ['A', 'B', 'C', 'D', 'E', 'F', 'G', 'H', 'I', 'J', 'K', 'L', 'M',
   'N', 'O', 'P', 'Q', 'R', 'S', 'T', 'U', 'V', 'W', 'X', 'Y', 'Z',
   'a', 'b', 'c', 'd', 'e', 'f', 'g', 'h', 'i', 'j', 'k', 'l', 'm',
   'n', 'o', 'p', 'q', 'r', 's', 't', 'u', 'v', 'w', 'x', 'y', 'z',
   '0', '1', '2', '3', '4', '5', '6', '7', '8', '9', '+', '/']

/-- Index of a character in a list, or none. -/
def charIndexAux : List Char → Char → Nat → Option Nat
  | [], _, _ => none
  | a :: rest, c, i => if a = c then some i else charIndexAux rest c (i + 1)

/-- Decode one base64 symbol to its 6-bit value; '=' and any character
outside the alphabet are rejected. -/
def b64DecodeChar (c : Char) : Option Nat :=
  charIndexAux b64Alphabet c 0

/-- Encode a 6-bit value as a base64 symbol. -/
def b64EncodeChar (n : Nat) : Char :=
  b64Alphabet.getD n '?'

/-- Padded standard base64 encoding of a byte sequence, 3 bytes to 4
symbols, with '=' padding for a trailing group of 1 or 2 bytes. -/
def b64Encode : List Nat → List Char
  | [] => []
  | [a] =>
    [b64EncodeChar (a / 4), b64EncodeChar (a % 4 * 16), '=', '=']
  | [a, b] =>
    [b64EncodeChar (a / 4), b64EncodeChar (a % 4 * 16 + b / 16),
     b64EncodeChar (b % 16 * 4), '=']
  | a :: b :: c :: rest =>
    b64EncodeChar (a / 4) :: b64EncodeChar (a % 4 * 16 + b / 16) ::
    b64EncodeChar (b % 16 * 4 + c / 64) :: b64EncodeChar (c % 64) ::
    b64Encode rest

/-- Strict padded base64 decoding: the input must be a sequence of
4-symbol blocks, only the last block may carry '=' padding, and the
unused low bits of the symbol before the padding must be zero (base64ct
rejects non-canonical encodings). -/
def b64Decode : List Char → Option (List Nat)
  | [] => some []
  | c1 :: c2 :: c3 :: c4 :: rest =>
    if rest = [] ∧ c3 = '=' ∧ c4 = '=' then do
      let x ← b64DecodeChar c1
      let y ← b64DecodeChar c2
      if y % 16 = 0 then some [x * 4 + y / 16] else none
    else if rest = [] ∧ c4 = '=' then do
      let x ← b64DecodeChar c1
      let y ← b64DecodeChar c2
      let z ← b64DecodeChar c3
      if z % 4 = 0 then some [x * 4 + y / 16, y % 16 * 16 + z / 4] else none
    else do
      let x ← b64DecodeChar c1
      let y ← b64DecodeChar c2
      let z ← b64DecodeChar c3
      let w ← b64DecodeChar c4
      let tail ← b64Decode rest
      some ((x * 4 + y / 16) :: (y % 16 * 16 + z / 4) :: (z % 4 * 64 + w) :: tail)
  | _ => none

/-- Base64::decode of base64ct into a zero-initialized buffer of bufLen
bytes, as used on artifacts.rs lines 47-49 and 66-68: decoding fails on
malformed base64 or when the decoded bytes do not fit the buffer;
otherwise the buffer holds the decoded bytes followed by the untouched
zero bytes, and the deserializer passes the whole buffer on. -/
def b64DecodeInto (bufLen : Nat) (s : List Char) : Option (List Nat) :=
  match b64Decode s with
  | none => none
  | some bytes =>
    if bytes.length ≤ bufLen then
      some (bytes ++ List.replicate (bufLen - bytes.length) 0)
    else none

/-- The scheme-provided artifact operations the codec relies on (the Compress
trait of the ibe crate, a black box per the spec): canonical fixed-length
byte encodings for the public key and the user secret key, and the
constant-time byte-to-value routines whose CtOption the codec opens with
open_ct (util.rs lines 12-18). The contract fields are the properties
the spec lists for the trait: encodings have the fixed scheme length,
bytes are bytes, and decoding a canonical encoding succeeds with an
artifact of the same canonical encoding. -/
structure KemArtifacts (Pk Usk : Type) where
  PK_BYTES : Nat
  USK_BYTES : Nat
  pkToBytes : Pk → List Nat
  pkFromBytes : List Nat → Option Pk
  uskToBytes : Usk → List Nat
  uskFromBytes : List Nat → Option Usk
  pk_bytes_length : ∀ pk, (pkToBytes pk).length = PK_BYTES
  usk_bytes_length : ∀ usk, (uskToBytes usk).length = USK_BYTES
  pk_bytes_lt : ∀ pk, ∀ b ∈ pkToBytes pk, b < 256
  usk_bytes_lt : ∀ usk, ∀ b ∈ uskToBytes usk, b < 256
  pk_roundtrip : ∀ pk, ∃ pk2, pkFromBytes (pkToBytes pk) = some pk2 ∧
    pkToBytes pk2 = pkToBytes pk
  usk_roundtrip : ∀ usk, ∃ usk2, uskFromBytes (uskToBytes usk) = some usk2 ∧
    uskToBytes usk2 = uskToBytes usk

/-- impl_deserialize_pk (artifacts.rs lines 41-58): base64-decode the
string into a PK_BYTES buffer, then open the constant-time
byte-to-value CtOption; each failure is surfaced as a
FormatViolation-kind error. -/
def decode_pk (A : KemArtifacts Pk Usk) (s : List Char) : Except Error Pk :=
  match b64DecodeInto A.PK_BYTES s with
  | none => .error .FormatViolation
  | some buf =>
    match A.pkFromBytes buf with
    | none => .error .FormatViolation
    | some pk => .ok pk

/-- impl_deserialize_usk (artifacts.rs lines 60-77), identical shape for
the user secret key. -/
def decode_usk (A : KemArtifacts Pk Usk) (s : List Char) : Except Error Usk :=
  match b64DecodeInto A.USK_BYTES s with
  | none => .error .FormatViolation
  | some buf =>
    match A.uskFromBytes buf with
    | none => .error .FormatViolation
    | some usk => .ok usk

/-- impl_serialize_pk (artifacts.rs lines 79-94): padded base64 of the
canonical byte encoding. -/
def encode_pk (A : KemArtifacts Pk Usk) (pk : Pk) : List Char :=
  b64Encode (A.pkToBytes pk)

/-- impl_serialize_usk (artifacts.rs lines 96-111). -/
def encode_usk (A : KemArtifacts Pk Usk) (usk : Usk) : List Char :=
  b64Encode (A.uskToBytes usk)

/-- A concrete executable artifact scheme used by the witnesses: a key
is one byte, its canonical encoding is the singleton list of that
byte. -/
def toyArtifacts : KemArtifacts (Fin 256) (Fin 256) where
  PK_BYTES := 1
  USK_BYTES := 1
  pkToBytes := fun k => [k.val]
  pkFromBytes := fun bs =>
    match bs with
    | [b] => if h : b < 256 then some ⟨b, h⟩ else none
    | _ => none
  uskToBytes := fun k => [k.val]
  uskFromBytes := fun bs =>
    match bs with
    | [b] => if h : b < 256 then some ⟨b, h⟩ else none
    | _ => none
  pk_bytes_length := fun _ => rfl
  usk_bytes_length := fun _ => rfl
  pk_bytes_lt := by intro pk b hb; simp at hb; omega
  usk_bytes_lt := by intro usk b hb; simp at hb; omega
  pk_roundtrip := by intro pk; exact ⟨pk, by simp, rfl⟩
  usk_roundtrip := by intro usk; exact ⟨usk, by simp, rfl⟩

/-! ### Header builder and decapsulation (src/irmaseal-core/src/metadata.rs) -/

/-- Possible symmetric-key encryption algorithms, metadata.rs lines
46-54. The IVs are byte lists; their per-variant lengths (16, 24, 12,
16) are captured by Algorithm.wfb below. -/
inductive Algorithm where
  | Aes128Gcm (iv : List Nat)
  | XSalsa20Poly1305 (iv : List Nat)
  | Aes128Ocb (iv : List Nat)
  | Aegis128 (iv : List Nat)
deriving DecidableEq

/-- Possible encryption modes, metadata.rs lines 18-33. -/
inductive Mode where
  | Streaming (segmentSize : Nat) (sizeHint : Nat × Option Nat)
  | InMemory (size : Nat)
deriving DecidableEq

/-- Default mode, metadata.rs lines 35-42: streaming with the default
segment size and hint (0, none). -/
def Mode.default : Mode :=
  .Streaming SYMMETRIC_CRYPTO_DEFAULT_CHUNK (0, none)

/-- default_algo, metadata.rs lines 56-61: AES-128-GCM with a fresh
16-byte IV drawn from the rng. -/
def defaultAlgo (randIv : Rng → List Nat) (rng : Rng) : Algorithm :=
  .Aes128Gcm (randIv rng)

/-- RecipientHeader, metadata.rs lines 79-88: the hidden policy and the
serialized KEM ciphertext for one recipient. -/
structure RecipientHeader where
  policy : HiddenPolicy
  ct : List Nat
deriving DecidableEq

/-- Header, metadata.rs lines 64-76. The BTreeMap of recipient
identifiers is embedded as its ordered entry list. -/
structure Header where
  policies : List (String × RecipientHeader)
  algo : Algorithm
  mode : Mode
deriving DecidableEq

/-- The CGW-KV multi-recipient KEM of the ibe crate, consumed by
metadata.rs as a black box (spec section 3): multi-recipient
encapsulation returning one ciphertext per identity plus one shared
secret, single-recipient decapsulation, USK extraction, the compressed
ciphertext codec, and the policy-to-identity derivation
(Policy::derive::<CGWKV>, in identity.rs which is not under src/). The
contract fields are the trait contracts the spec lists: encapsulation
yields exactly one ciphertext per identity, decapsulating the i-th
ciphertext with a USK extracted for the i-th identity yields the shared
secret, and the ciphertext codec round-trips. -/
structure KEMScheme (Pk Msk Usk Idt Ct Rng SS : Type) where
  multiEncaps : Pk → List Idt → Rng → List Ct × SS
  multiDecaps : Usk → Ct → Except Error SS
  extractUsk : Msk → Idt → Usk
  ctToBytes : Ct → List Nat
  ctFromBytes : List Nat → Option Ct
  deriveId : Policy → Except Error Idt
  encaps_length : ∀ pk ids rng, (multiEncaps pk ids rng).1.length = ids.length
  decaps_encaps : ∀ pk msk ids rng i id c,
    ids.get? i = some id →
    (multiEncaps pk ids rng).1.get? i = some c →
    multiDecaps (extractUsk msk id) c = .ok (multiEncaps pk ids rng).2
  ct_bytes_roundtrip : ∀ c, ctFromBytes (ctToBytes c) = some c

/-- `policies.values().map(|p| p.derive()).collect::<Result<Vec<_>,_>>()`
of Header::new (metadata.rs lines 110-113): derive the IBE identity of
every policy in iteration order, failing on the first failure. -/
def deriveIds (K : KEMScheme Pk Msk Usk Idt Ct Rng SS) :
    List (String × Policy) → Except Error (List Idt)
  | [] => .ok []
  | (_, p) :: rest =>
    match K.deriveId p with
    | .error e => .error e
    | .ok i =>
      match deriveIds K rest with
      | .error e => .error e
      | .ok is => .ok (i :: is)

/-- Header::new, metadata.rs lines 104-141: derive the identities in map
iteration order, run multi-recipient encapsulation, and key each
RecipientHeader (hidden policy plus serialized ciphertext) by the
recipient identifier paired with it, zipping the policy map with the
ciphertext list. -/
def Header.new (K : KEMScheme Pk Msk Usk Idt Ct Rng SS)
    (randIv : Rng → List Nat) (pk : Pk)
    (policies : List (String × Policy)) (rng : Rng) :
    Except Error (Header × SS) :=
  match deriveIds K policies with
  | .error e => .error e
  | .ok ids =>
    .ok (⟨(policies.zip (K.multiEncaps pk ids rng).1).map
        (fun x => (x.1.1, RecipientHeader.mk x.1.2.toHidden (K.ctToBytes x.2))),
      defaultAlgo randIv rng, Mode.default⟩,
      (K.multiEncaps pk ids rng).2)

/-- BTreeMap::get on the embedded entry list. -/
def mapLookup (k : String) : List (String × α) → Option α
  | [] => none
  | (k2, v) :: rest => if k2 = k then some v else mapLookup k rest

/-- RecipientHeader::derive_keys, metadata.rs lines 94-99: deserialize
the ciphertext (open_ct of from_bytes, FormatViolation on failure), then
decapsulate with the user secret key. -/
def RecipientHeader.derive_keys (K : KEMScheme Pk Msk Usk Idt Ct Rng SS)
    (rh : RecipientHeader) (usk : Usk) : Except Error SS :=
  match K.ctFromBytes rh.ct with
  | none => .error .FormatViolation
  | some c => K.multiDecaps usk c

/-- A concrete executable KEM used by the witnesses: identities, keys
and shared secrets are numbers, the shared secret is the rng value, a
ciphertext pairs the identity with the shared secret, and decapsulation
succeeds when the USK equals the identity inside the ciphertext. -/
def toyKEM : KEMScheme Nat Nat Nat Nat (Nat × Nat) Nat Nat where
  multiEncaps := fun _ ids rng => (ids.map (fun i => (i, rng)), rng)
  multiDecaps := fun usk c => if usk = c.1 then .ok c.2 else .error .Kem
  extractUsk := fun _ i => i
  ctToBytes := fun c => [c.1, c.2]
  ctFromBytes := fun bs =>
    match bs with
    | [i, s] => some (i, s)
    | _ => none
  deriveId := fun p => .ok p.timestamp
  encaps_length := by intro pk ids rng; simp
  decaps_encaps := by
    intro pk msk ids rng i id c hid hct
    simp only [List.get?_map, hid, Option.map_some'] at hct
    cases hct
    simp
  ct_bytes_roundtrip := by intro c; rfl

/-- Concrete single-recipient policy map used by the C1 witness. -/
def toyPolicies : List (String × Policy) :=
  [("alice", ⟨1700000000, []⟩)]

/-- The header Header::new produces from toyPolicies under toyKEM with
rng value 7 and an all-zero IV. -/
def toyHeaderC1 : Header :=
  ⟨[("alice", ⟨⟨1700000000, []⟩, [1700000000, 7]⟩)],
   .Aes128Gcm (List.replicate 16 0), Mode.default⟩

/-! ### Header wire encodings (src/irmaseal-core/src/metadata.rs lines 155-192)

Header::msgpack_into / msgpack_from and to_json_string /
from_json_string delegate the byte format to the external rmp_serde and
serde_json crates; what the repository defines is the serde data-model
shape of Header (struct maps with the renamed short field names,
string-tagged enum variants, serde(default) on mode). The data model is
embedded as SValue; a wire format is a black-box codec on SValue whose
contract is that decoding an encoded value yields the value back, which
is what both crates provide for the value shapes of the header (strings,
unsigned numbers, null, arrays, string-keyed maps). -/

/-- The serde data-model values the header serialization uses. -/
inductive SValue where
  | str : String → SValue
  | num : Nat → SValue
  | nul : SValue
  | arr : List SValue → SValue
  | map : List (SValue × SValue) → SValue

/-- A black-box wire format (rmp_serde with_struct_map +
with_string_variants, or serde_json) with its round-trip contract. -/
structure WireFormat (B : Type) where
  enc : SValue → B
  dec : B → Except Error SValue
  dec_enc : ∀ v, dec (enc v) = .ok v

/-- Serialize Option of String (serde: None as null, Some s as s). -/
def optStrToValue : Option String → SValue
  | none => .nul
  | some s => .str s

/-- Serialize Option of usize. -/
def optNatToValue : Option Nat → SValue
  | none => .nul
  | some n => .num n

/-- Serialize a hidden attribute as a struct map. -/
def attrToValue (a : HiddenAttribute) : SValue :=
  .map [(.str ("atype"), .str a.atype), (.str ("hidden_value"), optStrToValue a.hiddenValue)]

/-- Serialize a hidden policy as a struct map. -/
def hiddenPolicyToValue (p : HiddenPolicy) : SValue :=
  .map [(.str ("timestamp"), .num p.timestamp), (.str ("con"), .arr (p.con.map attrToValue))]

/-- Serialize a fixed byte array (the serde_big_array BigArray codec of
the ct field, and the iv arrays) as a sequence of u8 values. -/
def bytesToValue (bs : List Nat) : SValue :=
  .arr (bs.map .num)

/-- Serialize a RecipientHeader with the renamed fields p and ct
(metadata.rs lines 79-88). -/
def recipientToValue (r : RecipientHeader) : SValue :=
  .map [(.str ("p"), hiddenPolicyToValue r.policy), (.str ("ct"), bytesToValue r.ct)]

/-- Serialize an Algorithm as a string-tagged variant holding its struct
map (metadata.rs lines 46-54). -/
def algoToValue : Algorithm → SValue
  | .Aes128Gcm iv => .map [(.str ("Aes128Gcm"), .map [(.str ("iv"), bytesToValue iv)])]
  | .XSalsa20Poly1305 iv => .map [(.str ("XSalsa20Poly1305"), .map [(.str ("iv"), bytesToValue iv)])]
  | .Aes128Ocb iv => .map [(.str ("Aes128Ocb"), .map [(.str ("iv"), bytesToValue iv)])]
  | .Aegis128 iv => .map [(.str ("Aegis128"), .map [(.str ("iv"), bytesToValue iv)])]

/-- Serialize a Mode as a string-tagged variant (metadata.rs lines
18-33); the size hint tuple becomes a 2-element sequence. -/
def modeToValue : Mode → SValue
  | .Streaming segmentSize sizeHint =>
    .map [(.str ("Streaming"), .map
      [(.str ("segment_size"), .num segmentSize),
       (.str ("size_hint"), .arr [.num sizeHint.1, optNatToValue sizeHint.2])])]
  | .InMemory size =>
    .map [(.str ("InMemory"), .map [(.str ("size"), .num size)])]

/-- Serialize a Header as a struct map with the renamed field rs
(metadata.rs lines 64-76); the BTreeMap becomes a map keyed by the
recipient identifier strings. -/
def headerToValue (h : Header) : SValue :=
  .map [(.str ("rs"), .map (h.policies.map (fun kv => (.str kv.1, recipientToValue kv.2)))),
        (.str ("algo"), algoToValue h.algo),
        (.str ("mode"), modeToValue h.mode)]

/-- Look up a struct field by name in a serde map (serde matches fields
by name). -/
def findField (name : String) : List (SValue × SValue) → Option SValue
  | [] => none
  | (SValue.str s, v) :: rest => if s = name then some v else findField name rest
  | _ :: rest => findField name rest

/-- A required struct field; absence is a FormatViolation, as
msgpack_from maps every rmp_serde decode error to FormatViolation
(metadata.rs line 176). -/
def getField (name : String) (fields : List (SValue × SValue)) : Except Error SValue :=
  match findField name fields with
  | some v => .ok v
  | none => .error .FormatViolation

/-- Deserialize a string. -/
def strFromValue : SValue → Except Error String
  | .str s => .ok s
  | _ => .error .FormatViolation

/-- Deserialize an unsigned integer. -/
def natFromValue : SValue → Except Error Nat
  | .num n => .ok n
  | _ => .error .FormatViolation

/-- Deserialize Option of String. -/
def optStrFromValue : SValue → Except Error (Option String)
  | .nul => .ok none
  | .str s => .ok (some s)
  | _ => .error .FormatViolation

/-- Deserialize Option of usize. -/
def optNatFromValue : SValue → Except Error (Option Nat)
  | .nul => .ok none
  | .num n => .ok (some n)
  | _ => .error .FormatViolation

/-- Deserialize a struct map. -/
def mapFromValue : SValue → Except Error (List (SValue × SValue))
  | .map fields => .ok fields
  | _ => .error .FormatViolation

/-- Deserialize a sequence. -/
def arrFromValue : SValue → Except Error (List SValue)
  | .arr items => .ok items
  | _ => .error .FormatViolation

/-- Deserialize every element of a sequence, failing on the first
failure. -/
def decodeList (f : SValue → Except Error α) : List SValue → Except Error (List α)
  | [] => .ok []
  | v :: rest => do
    let a ← f v
    let as ← decodeList f rest
    .ok (a :: as)

/-- Deserialize one u8 (serde rejects out-of-range integers). -/
def byteFromValue : SValue → Except Error Nat
  | .num n => if n < 256 then .ok n else .error .FormatViolation
  | _ => .error .FormatViolation

/-- Deserialize a fixed byte array of the given length (BigArray and the
iv arrays enforce the declared length). -/
def bytesFromValue (len : Nat) (v : SValue) : Except Error (List Nat) := do
  let items ← arrFromValue v
  let bs ← decodeList byteFromValue items
  if bs.length = len then .ok bs else .error .FormatViolation

/-- Deserialize a hidden attribute. -/
def attrFromValue (v : SValue) : Except Error HiddenAttribute := do
  let fields ← mapFromValue v
  let t ← strFromValue (← getField ("atype") fields)
  let hv ← optStrFromValue (← getField ("hidden_value") fields)
  .ok ⟨t, hv⟩

/-- Deserialize a hidden policy. -/
def hiddenPolicyFromValue (v : SValue) : Except Error HiddenPolicy := do
  let fields ← mapFromValue v
  let ts ← natFromValue (← getField ("timestamp") fields)
  let conItems ← arrFromValue (← getField ("con") fields)
  let con ← decodeList attrFromValue conItems
  .ok ⟨ts, con⟩

/-- Deserialize a RecipientHeader; the parser enforces that the ct field
has the KEM-dictated length CT_BYTES
(MultiRecipientCiphertext::<CGWKV>::OUTPUT_SIZE, metadata.rs line 87). -/
def recipientFromValue (CT_BYTES : Nat) (v : SValue) : Except Error RecipientHeader := do
  let fields ← mapFromValue v
  let p ← hiddenPolicyFromValue (← getField ("p") fields)
  let ct ← bytesFromValue CT_BYTES (← getField ("ct") fields)
  .ok ⟨p, ct⟩

/-- Deserialize an Algorithm from its string-tagged variant; unknown
tags are rejected. -/
def algoFromValue (v : SValue) : Except Error Algorithm := do
  let fields ← mapFromValue v
  match fields with
  | [(SValue.str tag, body)] =>
    if tag = "Aes128Gcm" then do
      let flds ← mapFromValue body
      let iv ← bytesFromValue 16 (← getField ("iv") flds)
      .ok (.Aes128Gcm iv)
    else if tag = "XSalsa20Poly1305" then do
      let flds ← mapFromValue body
      let iv ← bytesFromValue 24 (← getField ("iv") flds)
      .ok (.XSalsa20Poly1305 iv)
    else if tag = "Aes128Ocb" then do
      let flds ← mapFromValue body
      let iv ← bytesFromValue 12 (← getField ("iv") flds)
      .ok (.Aes128Ocb iv)
    else if tag = "Aegis128" then do
      let flds ← mapFromValue body
      let iv ← bytesFromValue 16 (← getField ("iv") flds)
      .ok (.Aegis128 iv)
    else .error .FormatViolation
  | _ => .error .FormatViolation

/-- Deserialize a Mode from its string-tagged variant. -/
def modeFromValue (v : SValue) : Except Error Mode := do
  let fields ← mapFromValue v
  match fields with
  | [(SValue.str tag, body)] =>
    if tag = "Streaming" then do
      let flds ← mapFromValue body
      let segmentSize ← natFromValue (← getField ("segment_size") flds)
      let hintItems ← arrFromValue (← getField ("size_hint") flds)
      match hintItems with
      | [h1, h2] => do
        let lo ← natFromValue h1
        let hi ← optNatFromValue h2
        .ok (.Streaming segmentSize (lo, hi))
      | _ => .error .FormatViolation
    else if tag = "InMemory" then do
      let flds ← mapFromValue body
      let size ← natFromValue (← getField ("size") flds)
      .ok (.InMemory size)
    else .error .FormatViolation
  | _ => .error .FormatViolation

/-- Deserialize the rs map: every key must be a string (the recipient
identifier), every value a RecipientHeader. -/
def policiesFromFields (CT_BYTES : Nat) :
    List (SValue × SValue) → Except Error (List (String × RecipientHeader))
  | [] => .ok []
  | (SValue.str k, v) :: rest => do
    let rh ← recipientFromValue CT_BYTES v
    let tail ← policiesFromFields CT_BYTES rest
    .ok ((k, rh) :: tail)
  | _ :: _ => .error .FormatViolation

/-- Deserialize a Header from the serde data model: required fields rs
and algo, mode falling back to Mode::default when absent
(the serde(default) attribute on metadata.rs line 74). -/
def headerFromValue (CT_BYTES : Nat) (v : SValue) : Except Error Header := do
  let fields ← mapFromValue v
  let rsFields ← mapFromValue (← getField ("rs") fields)
  let policies ← policiesFromFields CT_BYTES rsFields
  let algo ← algoFromValue (← getField ("algo") fields)
  let mode ←
    match findField ("mode") fields with
    | none => pure Mode.default
    | some mv => modeFromValue mv
  .ok ⟨policies, algo, mode⟩

/-- Header::msgpack_into (metadata.rs lines 165-172): serialize through
the binary wire format. -/
def msgpack_into (F : WireFormat B) (h : Header) : B :=
  F.enc (headerToValue h)

/-- Header::msgpack_from (metadata.rs lines 175-177). -/
def msgpack_from (F : WireFormat B) (CT_BYTES : Nat) (b : B) : Except Error Header := do
  let v ← F.dec b
  headerFromValue CT_BYTES v

/-- Header::to_json_string (metadata.rs lines 184-186). -/
def to_json_string (J : WireFormat S) (h : Header) : S :=
  J.enc (headerToValue h)

/-- Header::from_json_string (metadata.rs lines 190-192). -/
def from_json_string (J : WireFormat S) (CT_BYTES : Nat) (s : S) : Except Error Header := do
  let v ← J.dec s
  headerFromValue CT_BYTES v

/-- serde_transcode from the binary format to JSON (the transcode test,
metadata.rs lines 270-276): stream the decoded data model straight into
the JSON serializer. -/
def transcodeToJson (F : WireFormat B) (J : WireFormat S) (b : B) : Except Error S := do
  let v ← F.dec b
  .ok (J.enc v)

/-- Well-formedness of an Algorithm value: the iv has the length its
variant declares and holds bytes. -/
def Algorithm.wfb : Algorithm → Bool
  | .Aes128Gcm iv => iv.length == 16 && iv.all (· < 256)
  | .XSalsa20Poly1305 iv => iv.length == 24 && iv.all (· < 256)
  | .Aes128Ocb iv => iv.length == 12 && iv.all (· < 256)
  | .Aegis128 iv => iv.length == 16 && iv.all (· < 256)

/-- Well-formedness of a Header (the data-model invariant of the spec): every
ciphertext has the KEM output size CT_BYTES and holds bytes, and the
iv of the algorithm is well-formed. -/
def Header.wfb (CT_BYTES : Nat) (h : Header) : Bool :=
  h.policies.all (fun kv => kv.2.ct.length == CT_BYTES && kv.2.ct.all (· < 256)) &&
  h.algo.wfb

/-- The trivial wire format on the data model itself: a legitimate
instance of the round-trip contract, used by the witnesses. -/
def idFormat : WireFormat SValue where
  enc := id
  dec := .ok
  dec_enc := fun _ => rfl

/-- Concrete header used by the C3 witness. -/
def demoHeader : Header :=
  ⟨[("alice", ⟨⟨1700000000, [⟨"pbdf.sidn-pbdf.email.email", none⟩]⟩, [7, 8, 9]⟩)],
   .Aes128Gcm (List.replicate 16 2), Mode.default⟩

/-! ## Theorems -/

/-! ### C4: validity clamping -/

/-- C4: for a key-issuance (non-signing) start request, any requested
validity greater than 86400 seconds fails with ValidityError, any
validity less than or equal to 86400 is accepted verbatim, and an absent
validity yields 300 seconds; for a signing-key request the cap is
8640000 seconds instead. -/
theorem start_validity_clamping :
    (∀ v : Nat, 86400 < v → startValidity false (some v) = .error .ValidityError)
  ∧ (∀ v : Nat, v ≤ 86400 → startValidity false (some v) = .ok v)
  ∧ startValidity false none = .ok 300
  ∧ (∀ v : Nat, 8640000 < v → startValidity true (some v) = .error .ValidityError)
  ∧ (∀ v : Nat, v ≤ 8640000 → startValidity true (some v) = .ok v)
  ∧ startValidity true none = .ok 300 := by
  refine ⟨fun v hv => ?_, fun v hv => ?_, rfl, fun v hv => ?_, fun v hv => ?_, rfl⟩
  · simp only [startValidity, MAX_VALIDITY, MAX_VALIDITY_SIGN]
    rw [if_pos (by simp; omega)]
  · simp only [startValidity, MAX_VALIDITY, MAX_VALIDITY_SIGN]
    rw [if_neg (by simp; omega)]
  · simp only [startValidity, MAX_VALIDITY, MAX_VALIDITY_SIGN]
    rw [if_pos (by simp; omega)]
  · simp only [startValidity, MAX_VALIDITY, MAX_VALIDITY_SIGN]
    rw [if_neg (by simp; omega)]

/-- Witness for C4 at the seed values 86401, 86400, none of the spec, and the
signing-side caps. -/
theorem start_validity_clamping_witness :
    startValidity false (some 86401) = .error .ValidityError
  ∧ startValidity false (some 86400) = .ok 86400
  ∧ startValidity false none = .ok 300
  ∧ startValidity true (some 8640001) = .error .ValidityError
  ∧ startValidity true (some 8640000) = .ok 8640000 :=
  ⟨start_validity_clamping.1 86401 (by decide),
   start_validity_clamping.2.1 86400 (by decide),
   start_validity_clamping.2.2.1,
   start_validity_clamping.2.2.2.1 8640001 (by decide),
   start_validity_clamping.2.2.2.2.1 8640000 (by decide)⟩

/-! ### C6: key derivation splitting -/

/-- C6 counterexample: the claim says derive_keys returns an AEAD key of
16 bytes and a MAC key of 16 bytes as the two halves of the 64-byte
SHA3-512 digest. The local arrays of util.rs lines 25-26 both have
length KEY_SIZE, so 16-byte keys require KEY_SIZE = 16; but then the
copy on line 30 copies the 48-byte remainder of the digest into a
16-byte array and panics, producing no keys at all (first conjunct); and
with KEY_SIZE = 32, the only size at which the function runs to
completion, the two keys are 32 bytes each, not 16 (second conjunct). -/
theorem derive_keys_sixteen_byte_keys_impossible :
    derive_keys_kdf 16 demoSha3 [1, 2, 3] = none
  ∧ (derive_keys_kdf 32 demoSha3 [1, 2, 3]).map
      (fun ks => (ks.aes_key.length, ks.mac_key.length)) = some (32, 32) := by
  constructor <;> decide

/-- C6 amended: for every 64-byte digest function, derive_keys with
KEY_SIZE = 32 returns the first 32-byte half of the SHA3-512 digest of
the canonical secret bytes as the AEAD key and the second 32-byte half
as the MAC key; any run that returns keys at all uses KEY_SIZE = 32 and
yields exactly those halves. -/
theorem derive_keys_splits_digest_into_32_byte_halves
    (H : List Nat → List Nat) (key : List Nat) (hlen : (H key).length = 64) :
    derive_keys_kdf 32 H key = some ⟨(H key).take 32, (H key).drop 32⟩
  ∧ ((H key).take 32).length = 32
  ∧ ((H key).drop 32).length = 32
  ∧ (∀ k ks, derive_keys_kdf k H key = some ks →
      k = 32 ∧ ks.aes_key = (H key).take 32 ∧ ks.mac_key = (H key).drop 32) := by
  refine ⟨?_, ?_, ?_, ?_⟩
  · simp [derive_keys_kdf, copyFromSlice, hlen]
  · simp [hlen]
  · simp [hlen]
  · intro k ks h
    simp only [derive_keys_kdf, copyFromSlice, List.length_take, List.length_drop, hlen,
      Option.bind_eq_bind] at h
    by_cases h1 : min k 64 = k
    swap
    · rw [if_neg h1] at h
      simp at h
    rw [if_pos h1] at h
    simp only [Option.some_bind] at h
    by_cases h2 : 64 - k = k
    swap
    · rw [if_neg h2] at h
      simp at h
    rw [if_pos h2] at h
    simp only [Option.some_bind, Option.some.injEq] at h
    have hk : k = 32 := by omega
    subst hk
    exact ⟨rfl, by rw [← h], by rw [← h]⟩

/-- Witness for C6 amended, at a concrete digest function and secret. -/
theorem derive_keys_splits_witness :
    derive_keys_kdf 32 demoSha3 [1, 2, 3] =
      some ⟨(demoSha3 [1, 2, 3]).take 32, (demoSha3 [1, 2, 3]).drop 32⟩ :=
  (derive_keys_splits_digest_into_32_byte_halves demoSha3 [1, 2, 3] (by decide)).1

/-! ### Polling loop lemmas (C5, C8) -/

/-- The polling loop issues at most as many polls as its budget. -/
theorem waitOnSessionAux_polls_le {K : Type}
    (responses : Nat → Except Unit (KeyResponse K)) :
    ∀ fuel i, (waitOnSessionAux responses i fuel).polls ≤ fuel := by
  intro fuel
  induction fuel with
  | zero => intro i; simp [waitOnSessionAux]
  | succ fuel ih =>
    intro i
    cases hr : responses i with
    | error e => simp [waitOnSessionAux, hr]
    | ok r =>
      by_cases hst : r.status = KeyStatus.DoneValid
      · simp [waitOnSessionAux, hr, hst]
      · simp only [waitOnSessionAux, hr]
        rw [if_neg hst]
        have := ih (i + 1)
        simp only []
        omega

/-- Every delay slept by the polling loop is 500 milliseconds. -/
theorem waitOnSessionAux_delays {K : Type}
    (responses : Nat → Except Unit (KeyResponse K)) :
    ∀ fuel i, ∀ d ∈ (waitOnSessionAux responses i fuel).delaysNs, d = 500000000 := by
  intro fuel
  induction fuel with
  | zero => intro i d hd; simp [waitOnSessionAux] at hd
  | succ fuel ih =>
    intro i d hd
    cases hr : responses i with
    | error e => simp [waitOnSessionAux, hr] at hd
    | ok r =>
      by_cases hst : r.status = KeyStatus.DoneValid
      · simp [waitOnSessionAux, hr, hst] at hd
      · simp only [waitOnSessionAux, hr] at hd
        rw [if_neg hst] at hd
        simp only [List.mem_cons] at hd
        rcases hd with hd | hd
        · exact hd
        · exact ih (i + 1) d hd

/-- If every successful response in the budget window is not DoneValid,
the loop returns no key. -/
theorem waitOnSessionAux_all_non_done {K : Type}
    (responses : Nat → Except Unit (KeyResponse K)) :
    ∀ fuel i,
      (∀ j, j < fuel → ∀ r, responses (i + j) = .ok r → r.status ≠ KeyStatus.DoneValid) →
      (waitOnSessionAux responses i fuel).result = none := by
  intro fuel
  induction fuel with
  | zero => intro i _; simp [waitOnSessionAux]
  | succ fuel ih =>
    intro i h
    cases hr : responses i with
    | error e => simp [waitOnSessionAux, hr]
    | ok r =>
      have hst : r.status ≠ KeyStatus.DoneValid := by
        have := h 0 (by omega) r
        simp only [Nat.add_zero] at this
        exact this hr
      simp only [waitOnSessionAux, hr]
      rw [if_neg hst]
      exact ih (i + 1) (fun j hj r2 hr2 => by
        have := h (j + 1) (by omega) r2
        rw [show i + (j + 1) = i + 1 + j by omega] at this
        exact this hr2)

/-- If every poll in the budget window succeeds with a non-DoneValid
status, the loop exhausts its budget: no key, one poll and one 500 ms
delay per attempt. -/
theorem waitOnSessionAux_exhaust {K : Type}
    (responses : Nat → Except Unit (KeyResponse K)) :
    ∀ fuel i,
      (∀ j, j < fuel → ∃ r, responses (i + j) = .ok r ∧ r.status ≠ KeyStatus.DoneValid) →
      waitOnSessionAux responses i fuel = ⟨none, fuel, List.replicate fuel 500000000⟩ := by
  intro fuel
  induction fuel with
  | zero => intro i _; simp [waitOnSessionAux]
  | succ fuel ih =>
    intro i h
    obtain ⟨r, hr, hst⟩ := h 0 (by omega)
    simp only [Nat.add_zero] at hr
    simp only [waitOnSessionAux, hr]
    rw [if_neg hst]
    rw [ih (i + 1) (fun j hj => by
      have := h (j + 1) (by omega)
      rw [show i + (j + 1) = i + 1 + j by omega] at this
      exact this)]
    simp [List.replicate_succ]

/-- If the polls before index k all succeed with a non-DoneValid status
(terminal or not) and poll k succeeds with DoneValid, the loop keeps
polling through all of them and returns the DoneValid response after
k + 1 polls. -/
theorem waitOnSessionAux_finds {K : Type}
    (responses : Nat → Except Unit (KeyResponse K)) :
    ∀ k i fuel, k < fuel →
      (∀ j, j < k → ∃ rj, responses (i + j) = .ok rj ∧ rj.status ≠ KeyStatus.DoneValid) →
      ∀ r, responses (i + k) = .ok r → r.status = KeyStatus.DoneValid →
      waitOnSessionAux responses i fuel = ⟨some r, k + 1, List.replicate k 500000000⟩ := by
  intro k
  induction k with
  | zero =>
    intro i fuel hfuel _ r hr hst
    cases fuel with
    | zero => omega
    | succ fuel =>
      simp only [Nat.add_zero] at hr
      simp [waitOnSessionAux, hr, hst]
  | succ k ih =>
    intro i fuel hfuel hprev r hr hst
    cases fuel with
    | zero => omega
    | succ fuel =>
      obtain ⟨r0, hr0, hst0⟩ := hprev 0 (by omega)
      simp only [Nat.add_zero] at hr0
      simp only [waitOnSessionAux, hr0]
      rw [if_neg hst0]
      rw [ih (i + 1) fuel (by omega)
        (fun j hj => by
          have := hprev (j + 1) (by omega)
          rw [show i + (j + 1) = i + 1 + j by omega] at this
          exact this)
        r (by rw [show i + 1 + k = i + (k + 1) by omega]; exact hr) hst]
      simp [List.replicate_succ]

/-! ### C5: terminal statuses are not surfaced immediately -/

/-- C5 counterexample: under the claim, the terminal status Cancelled
reported at the first poll must be surfaced immediately instead of being
polled again. On the concrete sequence c5responses (Cancelled first,
then DoneValid), the loop polls a second time (polls = 2, after a 500 ms
sleep) and returns the key of the second response, so the terminal failure
was neither surfaced nor the polling stopped. -/
theorem wait_on_session_polls_after_terminal_status :
    waitOnSession c5responses =
      ⟨some ⟨KeyStatus.DoneValid, some ProofStatus.Valid, some 42⟩, 2, [500000000]⟩
  ∧ (waitOnSession c5responses).polls ≠ 1 := by
  constructor <;> decide

/-- C5 amended: during PKG session polling the caller retries on every
status other than DoneValid, transient and terminal alike; a terminal
failure status is not surfaced, polling continues until a DoneValid
response (returned after k + 1 polls and k 500 ms sleeps), a client
error, or the 120-attempt ceiling. -/
theorem wait_on_session_retries_every_non_done_status {K : Type}
    (responses : Nat → Except Unit (KeyResponse K)) (k : Nat) (hk : k < 120)
    (r : KeyResponse K) (hr : responses k = .ok r)
    (hst : r.status = KeyStatus.DoneValid)
    (hprev : ∀ j, j < k → ∃ rj, responses j = .ok rj ∧ rj.status ≠ KeyStatus.DoneValid) :
    waitOnSession responses = ⟨some r, k + 1, List.replicate k 500000000⟩ :=
  waitOnSessionAux_finds responses k 0 120 hk
    (fun j hj => by simpa using hprev j hj) r (by simpa using hr) hst

/-- Witness for C5 amended: on c5responses the terminal Cancelled at
poll 0 is retried and the DoneValid response of poll 1 is returned. -/
theorem wait_on_session_retries_witness :
    waitOnSession c5responses =
      ⟨some ⟨KeyStatus.DoneValid, some ProofStatus.Valid, some 42⟩, 2,
       List.replicate 1 500000000⟩ :=
  wait_on_session_retries_every_non_done_status c5responses 1 (by decide)
    ⟨KeyStatus.DoneValid, some ProofStatus.Valid, some 42⟩ rfl rfl
    (fun j hj => by
      have hj0 : j = 0 := by omega
      subst hj0
      exact ⟨⟨KeyStatus.Cancelled, none, none⟩, rfl, by decide⟩)

/-! ### C8: attempt ceiling and delays -/

/-- C8: the polling loop makes at most 120 poll attempts, every sleep it
performs is 500 ms, and when no poll in the 120-attempt window reports
DoneValid it returns no key; in particular when every poll succeeds with
a non-DoneValid status, it makes exactly 120 polls with a 500 ms sleep
after each and reports the timeout by returning none. -/
theorem wait_on_session_attempt_ceiling {K : Type}
    (responses : Nat → Except Unit (KeyResponse K)) :
    (waitOnSession responses).polls ≤ 120
  ∧ (∀ d ∈ (waitOnSession responses).delaysNs, d = 500000000)
  ∧ ((∀ j, j < 120 → ∀ r, responses j = .ok r → r.status ≠ KeyStatus.DoneValid) →
      (waitOnSession responses).result = none)
  ∧ ((∀ j, j < 120 → ∃ r, responses j = .ok r ∧ r.status ≠ KeyStatus.DoneValid) →
      waitOnSession responses = ⟨none, 120, List.replicate 120 500000000⟩) :=
  ⟨waitOnSessionAux_polls_le responses 120 0,
   waitOnSessionAux_delays responses 120 0,
   fun h => waitOnSessionAux_all_non_done responses 120 0
     (fun j hj r hr => h j hj r (by simpa using hr)),
   fun h => waitOnSessionAux_exhaust responses 120 0
     (fun j hj => by simpa using h j hj)⟩

/-- Witness for C8: a session that stays Pending forever exhausts the
120-attempt ceiling with a 500 ms sleep after every attempt and no
key. -/
theorem wait_on_session_attempt_ceiling_witness :
    (waitOnSession c8responses).polls ≤ 120
  ∧ waitOnSession c8responses = ⟨none, 120, List.replicate 120 500000000⟩ :=
  ⟨(wait_on_session_attempt_ceiling c8responses).1,
   (wait_on_session_attempt_ceiling c8responses).2.2.2
     (fun j hj => ⟨⟨KeyStatus.Pending, none, none⟩, rfl, by decide⟩)⟩

/-! ### Sealer segmentation lemmas (C2, C9) -/

/-- Unfolding equation of the seal loop. -/
theorem sealSegments_eq (s : Nat) (hs : 0 < s) (pt : List Nat) :
    sealSegments s hs pt =
      if pt.length < s then [(pt, true)]
      else (pt.take s, false) :: sealSegments s hs (pt.drop s) := by
  by_cases h : pt.length < s
  · rw [sealSegments]
    simp [h]
  · rw [sealSegments]
    simp [h]

/-- The seal loop always emits at least one segment. -/
theorem sealSegments_ne_nil (s : Nat) (hs : 0 < s) (pt : List Nat) :
    sealSegments s hs pt ≠ [] := by
  rw [sealSegments_eq]
  split <;> simp

/-- The seal loop emits one segment per full buffer plus the final
segment. -/
theorem sealSegments_length (s : Nat) (hs : 0 < s) (pt : List Nat) :
    (sealSegments s hs pt).length = pt.length / s + 1 := by
  rw [sealSegments_eq]
  by_cases h : pt.length < s
  · rw [if_pos h]
    simp [Nat.div_eq_of_lt h]
  · rw [if_neg h]
    simp only [List.length_cons]
    rw [sealSegments_length s hs (pt.drop s)]
    simp only [List.length_drop]
    rw [Nat.div_eq_sub_div hs (Nat.le_of_not_lt h)]
termination_by pt.length
decreasing_by
  simp only [List.length_drop]
  omega

/-- The seal loop emits exactly one segment flagged final. -/
theorem sealSegments_one_final (s : Nat) (hs : 0 < s) (pt : List Nat) :
    (sealSegments s hs pt).countP (fun seg => seg.2) = 1 := by
  rw [sealSegments_eq]
  by_cases h : pt.length < s
  · rw [if_pos h]
    simp
  · rw [if_neg h]
    rw [List.countP_cons]
    rw [sealSegments_one_final s hs (pt.drop s)]
    simp
termination_by pt.length
decreasing_by
  simp only [List.length_drop]
  omega

/-- Every non-final segment carries exactly a full buffer of
segmentSize plaintext bytes. -/
theorem sealSegments_nonfinal_full (s : Nat) (hs : 0 < s) (pt : List Nat) :
    ∀ seg ∈ sealSegments s hs pt, seg.2 = false → seg.1.length = s := by
  rw [sealSegments_eq]
  by_cases h : pt.length < s
  · rw [if_pos h]
    intro seg hseg hfin
    simp only [List.mem_singleton] at hseg
    rw [hseg] at hfin
    simp at hfin
  · rw [if_neg h]
    intro seg hseg hfin
    rcases List.mem_cons.mp hseg with hseg | hseg
    · rw [hseg]
      simp
      omega
    · exact sealSegments_nonfinal_full s hs (pt.drop s) seg hseg hfin
termination_by pt.length
decreasing_by
  simp only [List.length_drop]
  omega

/-- The last emitted segment is the trailing short read, flagged
final. -/
theorem sealSegments_getLast (s : Nat) (hs : 0 < s) (pt : List Nat) :
    (sealSegments s hs pt).getLast? = some (pt.drop (pt.length / s * s), true) := by
  rw [sealSegments_eq]
  by_cases h : pt.length < s
  · rw [if_pos h]
    simp [Nat.div_eq_of_lt h]
  · rw [if_neg h]
    cases hrest : sealSegments s hs (pt.drop s) with
    | nil => exact absurd hrest (sealSegments_ne_nil s hs (pt.drop s))
    | cons b l =>
      rw [List.getLast?_cons_cons]
      rw [← hrest, sealSegments_getLast s hs (pt.drop s)]
      simp only [List.length_drop]
      rw [List.drop_drop]
      rw [Nat.div_eq_sub_div hs (Nat.le_of_not_lt h), Nat.add_mul, Nat.one_mul,
        Nat.add_comm ((pt.length - s) / s * s) s]
termination_by pt.length
decreasing_by
  simp only [List.length_drop]
  omega

/-- Exact-multiple plaintexts: n full segments then an empty final
segment. -/
theorem sealSegments_exact_multiple (s : Nat) (hs : 0 < s) :
    ∀ (n : Nat) (pt : List Nat), pt.length = n * s →
      sealSegments s hs pt =
        ((List.range n).map (fun i => ((pt.drop (i * s)).take s, false))) ++ [([], true)] := by
  intro n
  induction n with
  | zero =>
    intro pt hlen
    have hnil : pt = [] := List.eq_nil_of_length_eq_zero (by simpa using hlen)
    subst hnil
    rw [sealSegments_eq]
    simp [hs]
  | succ n ih =>
    intro pt hlen
    rw [sealSegments_eq]
    have hns : ¬ pt.length < s := by
      rw [hlen, Nat.succ_mul]
      omega
    rw [if_neg hns]
    rw [ih (pt.drop s) (by simp only [List.length_drop, hlen, Nat.succ_mul]; omega)]
    rw [List.range_succ_eq_map]
    simp only [List.map_cons, List.map_map, List.cons_append]
    congr 1
    · simp
    congr 1
    apply List.map_congr_left
    intro i _
    simp only [Function.comp_apply, List.drop_drop]
    congr 3
    rw [Nat.succ_mul]
    omega

/-! ### C2: segment structure of seal -/

/-- C2: for every plaintext stream, seal emits exactly one final AEAD
segment; every full buffer of segmentSize plaintext bytes becomes a
non-final ciphertext segment of segmentSize + 16 bytes; the trailing
short read becomes the final segment of (length mod segmentSize) + 16
bytes; a zero-length plaintext still emits exactly one final segment of
only a 16-byte tag; and a plaintext of segment_size * 3 + 1 bytes at the
default segment size yields exactly 4 ciphertext segments whose last is
the 1-byte short final segment. -/
theorem seal_emits_exactly_one_final_segment (s : Nat) (hs : 0 < s) (pt : List Nat) :
    (sealSegments s hs pt).countP (fun seg => seg.2) = 1
  ∧ (∀ seg ∈ sealSegments s hs pt, seg.2 = false → seg.1.length = s)
  ∧ (∀ seg ∈ sealCiphertextSegments s hs pt, seg.2 = false → seg.1 = s + TAG_SIZE)
  ∧ (sealSegments s hs pt).getLast? = some (pt.drop (pt.length / s * s), true)
  ∧ (pt.drop (pt.length / s * s)).length = pt.length % s
  ∧ sealCiphertextSegments s hs [] = [(TAG_SIZE, true)]
  ∧ (sealCiphertextSegments s hs pt).length = pt.length / s + 1
  ∧ (pt.length = 3 * SYMMETRIC_CRYPTO_DEFAULT_CHUNK + 1 → s = SYMMETRIC_CRYPTO_DEFAULT_CHUNK →
      (sealCiphertextSegments s hs pt).length = 4 ∧
      ∃ lastSeg, (sealSegments s hs pt).getLast? = some (lastSeg, true) ∧
        lastSeg.length = 1) := by
  refine ⟨sealSegments_one_final s hs pt, sealSegments_nonfinal_full s hs pt, ?_, ?_, ?_, ?_, ?_, ?_⟩
  · intro seg hseg hfin
    simp only [sealCiphertextSegments, List.mem_map] at hseg
    obtain ⟨seg0, hseg0, hmap⟩ := hseg
    rw [← hmap]
    rw [← hmap] at hfin
    simp only at hfin ⊢
    rw [sealSegments_nonfinal_full s hs pt seg0 hseg0 hfin]
  · exact sealSegments_getLast s hs pt
  · simp only [List.length_drop]
    have h := Nat.div_add_mod pt.length s
    rw [Nat.mul_comm] at h
    omega
  · simp only [sealCiphertextSegments]
    rw [sealSegments_eq]
    rw [if_pos (by simpa using hs)]
    simp [TAG_SIZE]
  · simp only [sealCiphertextSegments, List.length_map]
    exact sealSegments_length s hs pt
  · intro hlen hdef
    subst hdef
    constructor
    · simp only [sealCiphertextSegments, List.length_map]
      rw [sealSegments_length, hlen]
      norm_num [SYMMETRIC_CRYPTO_DEFAULT_CHUNK]
    · refine ⟨pt.drop (pt.length / SYMMETRIC_CRYPTO_DEFAULT_CHUNK * SYMMETRIC_CRYPTO_DEFAULT_CHUNK),
        sealSegments_getLast _ hs pt, ?_⟩
      simp only [List.length_drop]
      have h := Nat.div_add_mod pt.length SYMMETRIC_CRYPTO_DEFAULT_CHUNK
      rw [Nat.mul_comm] at h
      have hmod : pt.length % SYMMETRIC_CRYPTO_DEFAULT_CHUNK = 1 := by
        rw [hlen]
        norm_num [SYMMETRIC_CRYPTO_DEFAULT_CHUNK]
      omega

/-- Witness for C2 on segment size 2 and the 3-byte plaintext [9, 9, 9]:
one full non-final segment, then the short final segment [9]. -/
theorem seal_emits_exactly_one_final_segment_witness :
    (sealSegments 2 (Nat.succ_pos 1) [9, 9, 9]).countP (fun seg => seg.2) = 1
  ∧ (sealSegments 2 (Nat.succ_pos 1) [9, 9, 9]).getLast? = some ([9], true) :=
  ⟨(seal_emits_exactly_one_final_segment 2 (Nat.succ_pos 1) [9, 9, 9]).1,
   (seal_emits_exactly_one_final_segment 2 (Nat.succ_pos 1) [9, 9, 9]).2.2.2.1⟩

/-! ### C9: exact multiples get a trailing empty final segment -/

/-- C9: if the plaintext length is a positive exact multiple n of the
segment size, seal emits n full non-final ciphertext segments of
segmentSize + 16 bytes followed by one additional empty final segment of
only the 16-byte tag; no segment before the last carries the final
flag. -/
theorem seal_exact_multiple_trailing_empty_final (s : Nat) (hs : 0 < s) (n : Nat)
    (_hn : 0 < n) (pt : List Nat) (hlen : pt.length = n * s) :
    sealSegments s hs pt =
      ((List.range n).map (fun i => ((pt.drop (i * s)).take s, false))) ++ [([], true)]
  ∧ sealCiphertextSegments s hs pt =
      List.replicate n (s + TAG_SIZE, false) ++ [(TAG_SIZE, true)]
  ∧ (∀ seg ∈ (sealSegments s hs pt).dropLast, seg.2 = false) := by
  have hmain := sealSegments_exact_multiple s hs n pt hlen
  refine ⟨hmain, ?_, ?_⟩
  · simp only [sealCiphertextSegments, hmain, List.map_append, List.map_map]
    congr 1
    apply List.eq_replicate_iff.mpr
    refine ⟨by simp, ?_⟩
    intro b hb
    simp only [List.mem_map, List.mem_range, Function.comp_apply] at hb
    obtain ⟨i, hi, hmap⟩ := hb
    rw [← hmap]
    simp only [List.length_take, List.length_drop, hlen]
    have hsub : n * s - i * s = (n - i) * s := by
      rw [Nat.sub_mul]
    have hle : s ≤ (n - i) * s := by
      have h1 : 1 ≤ n - i := by omega
      calc s = 1 * s := (Nat.one_mul s).symm
      _ ≤ (n - i) * s := Nat.mul_le_mul_right s h1
    rw [hsub]
    rw [Nat.min_eq_left hle]
  · rw [hmain, List.dropLast_concat]
    intro seg hseg
    simp only [List.mem_map, List.mem_range] at hseg
    obtain ⟨i, _, hmap⟩ := hseg
    rw [← hmap]

/-- Witness for C9 at segment size 1 and one-segment plaintext [5]. -/
theorem seal_exact_multiple_trailing_empty_final_witness :
    sealSegments 1 (Nat.succ_pos 0) [5] = [([5], false), ([], true)]
  ∧ sealCiphertextSegments 1 (Nat.succ_pos 0) [5] = [(17, false), (16, true)] :=
  ⟨(seal_exact_multiple_trailing_empty_final 1 (Nat.succ_pos 0) 1 (Nat.succ_pos 0) [5] rfl).1,
   (seal_exact_multiple_trailing_empty_final 1 (Nat.succ_pos 0) 1 (Nat.succ_pos 0) [5] rfl).2.1⟩

/-! ### Header builder lemmas (C1) -/

/-- A successful identity derivation yields one identity per policy. -/
theorem deriveIds_ok_length (K : KEMScheme Pk Msk Usk Idt Ct Rng SS) :
    ∀ (l : List (String × Policy)) (ids : List Idt),
      deriveIds K l = .ok ids → ids.length = l.length := by
  intro l
  induction l with
  | nil =>
    intro ids h
    simp only [deriveIds, Except.ok.injEq] at h
    rw [← h]
    rfl
  | cons hd tl ih =>
    obtain ⟨rid0, p0⟩ := hd
    intro ids h
    simp only [deriveIds] at h
    cases hd1 : K.deriveId p0 with
    | error e => rw [hd1] at h; exact absurd h (by simp)
    | ok i =>
      rw [hd1] at h
      cases hd2 : deriveIds K tl with
      | error e => rw [hd2] at h; exact absurd h (by simp)
      | ok is =>
        rw [hd2] at h
        simp only [Except.ok.injEq] at h
        rw [← h]
        simp [ih is hd2]

/-- A successful identity derivation derives the i-th identity from the
i-th policy. -/
theorem deriveIds_ok_get? (K : KEMScheme Pk Msk Usk Idt Ct Rng SS) :
    ∀ (l : List (String × Policy)) (ids : List Idt), deriveIds K l = .ok ids →
      ∀ i rid p, l.get? i = some (rid, p) →
        ∃ id, ids.get? i = some id ∧ K.deriveId p = .ok id := by
  intro l
  induction l with
  | nil => intro ids _ i rid p hget; simp at hget
  | cons hd tl ih =>
    obtain ⟨rid0, p0⟩ := hd
    intro ids h i rid p hget
    simp only [deriveIds] at h
    cases hd1 : K.deriveId p0 with
    | error e => rw [hd1] at h; exact absurd h (by simp)
    | ok id0 =>
      rw [hd1] at h
      cases hd2 : deriveIds K tl with
      | error e => rw [hd2] at h; exact absurd h (by simp)
      | ok is =>
        rw [hd2] at h
        simp only [Except.ok.injEq] at h
        subst h
        cases i with
        | zero =>
          simp only [List.get?_cons_zero, Option.some.injEq, Prod.mk.injEq] at hget
          refine ⟨id0, by simp, ?_⟩
          rw [← hget.2]
          exact hd1
        | succ i =>
          simp only [List.get?_cons_succ] at hget
          simpa using ih is hd2 i rid p hget

/-- Indexing a zip of two lists. -/
theorem zip_get_pair : ∀ (l1 : List α) (l2 : List β) (i : Nat) (a : α) (b : β),
    l1.get? i = some a → l2.get? i = some b → (l1.zip l2).get? i = some (a, b) := by
  intro l1
  induction l1 with
  | nil => intro l2 i a b h _; simp at h
  | cons x xs ih =>
    intro l2 i a b h1 h2
    cases l2 with
    | nil => simp at h2
    | cons y ys =>
      cases i with
      | zero =>
        simp only [List.get?_cons_zero, Option.some.injEq] at h1 h2
        subst h1
        subst h2
        simp [List.zip_cons_cons]
      | succ i =>
        simp only [List.get?_cons_succ] at h1 h2
        simpa [List.zip_cons_cons] using ih ys i a b h1 h2

/-- On a map whose keys are distinct, BTreeMap::get returns the entry at
the index where the key appears. -/
theorem mapLookup_of_get_at : ∀ (l : List (String × α)), (l.map Prod.fst).Nodup →
    ∀ i k v, l.get? i = some (k, v) → mapLookup k l = some v := by
  intro l
  induction l with
  | nil => intro _ i k v h; simp at h
  | cons hd tl ih =>
    obtain ⟨k0, v0⟩ := hd
    intro hnd i k v hget
    simp only [List.map_cons, List.nodup_cons] at hnd
    obtain ⟨hk0, hnd2⟩ := hnd
    cases i with
    | zero =>
      simp only [List.get?_cons_zero, Option.some.injEq, Prod.mk.injEq] at hget
      obtain ⟨h1, h2⟩ := hget
      subst h1
      subst h2
      simp [mapLookup]
    | succ i =>
      simp only [List.get?_cons_succ] at hget
      have hkne : k0 ≠ k := by
        intro hEq
        subst hEq
        have hmem : (k0, v) ∈ tl := List.get?_mem hget
        exact hk0 (List.mem_map_of_mem Prod.fst hmem)
      simp only [mapLookup]
      rw [if_neg hkne]
      exact ih hnd2 i k v hget

/-- The recipient map built by Header::new has the same key sequence as
the policy map. -/
theorem zipped_recipient_keys (policies : List (String × Policy)) (cts : List Ct)
    (g : (String × Policy) × Ct → RecipientHeader)
    (hlen : policies.length = cts.length) :
    (((policies.zip cts).map (fun x => (x.1.1, g x))).map Prod.fst) =
      policies.map Prod.fst := by
  rw [List.map_map]
  have h1 : (Prod.fst ∘ fun x : (String × Policy) × Ct => (x.1.1, g x)) =
      (Prod.fst ∘ (Prod.fst : (String × Policy) × Ct → String × Policy)) := rfl
  rw [h1, ← List.map_map]
  rw [List.map_fst_zip policies cts (le_of_eq hlen)]

/-! ### C1: shared-secret agreement -/

/-- C1: for every KEM satisfying the trait contract of the spec, every MPK,
policy map with distinct identifiers, and rng, and for every recipient
identifier in the map, the shared secret returned by Header::new equals
the shared secret obtained by derive_keys on the RecipientHeader of that
recipient with the USK extracted for the identity of the policy of that
recipient. -/
theorem header_new_shared_secret_agreement
    {Pk Msk Usk Idt Ct Rng SS : Type} (K : KEMScheme Pk Msk Usk Idt Ct Rng SS)
    (randIv : Rng → List Nat) (pk : Pk) (msk : Msk)
    (policies : List (String × Policy)) (rng : Rng)
    (hnd : (policies.map Prod.fst).Nodup)
    (rid : String) (pol : Policy) (hmem : (rid, pol) ∈ policies)
    (hdr : Header) (ss : SS)
    (hnew : Header.new K randIv pk policies rng = .ok (hdr, ss)) :
    ∃ pid rh, K.deriveId pol = .ok pid
      ∧ mapLookup rid hdr.policies = some rh
      ∧ RecipientHeader.derive_keys K rh (K.extractUsk msk pid) = .ok ss := by
  simp only [Header.new] at hnew
  cases hids : deriveIds K policies with
  | error e => rw [hids] at hnew; exact absurd hnew (by simp)
  | ok ids =>
    rw [hids] at hnew
    simp only [Except.ok.injEq, Prod.mk.injEq] at hnew
    obtain ⟨hhdr, hss⟩ := hnew
    obtain ⟨i, hget⟩ := List.get?_of_mem hmem
    obtain ⟨pid, hpid, hderive⟩ := deriveIds_ok_get? K policies ids hids i rid pol hget
    have hlen : policies.length = (K.multiEncaps pk ids rng).1.length := by
      rw [K.encaps_length pk ids rng, deriveIds_ok_length K policies ids hids]
    obtain ⟨hi, _⟩ := List.get?_eq_some.mp hget
    have hict : i < (K.multiEncaps pk ids rng).1.length := by omega
    obtain ⟨ct, hct⟩ : ∃ ct, (K.multiEncaps pk ids rng).1.get? i = some ct := by
      rw [List.get?_eq_get hict]
      exact ⟨_, rfl⟩
    have hzip := zip_get_pair policies (K.multiEncaps pk ids rng).1 i (rid, pol) ct hget hct
    have hmapget : hdr.policies.get? i =
        some (rid, ⟨pol.toHidden, K.ctToBytes ct⟩) := by
      rw [← hhdr]
      dsimp only
      rw [List.get?_map, hzip]
      rfl
    have hkeys : (hdr.policies.map Prod.fst).Nodup := by
      rw [← hhdr]
      simp only []
      rw [zipped_recipient_keys policies (K.multiEncaps pk ids rng).1
        (fun x => RecipientHeader.mk x.1.2.toHidden (K.ctToBytes x.2)) hlen]
      exact hnd
    have hlook := mapLookup_of_get_at hdr.policies hkeys i rid _ hmapget
    refine ⟨pid, ⟨pol.toHidden, K.ctToBytes ct⟩, hderive, hlook, ?_⟩
    simp only [RecipientHeader.derive_keys]
    rw [K.ct_bytes_roundtrip ct]
    rw [← hss]
    exact K.decaps_encaps pk msk ids rng i pid ct hpid hct

/-- Witness for C1: the toy KEM with policy map toyPolicies and rng
value 7; Header::new computes toyHeaderC1 with shared secret 7 and
derive_keys recovers 7. -/
theorem header_new_shared_secret_agreement_witness :
    ∃ pid rh, toyKEM.deriveId ⟨1700000000, []⟩ = .ok pid
      ∧ mapLookup ("alice") toyHeaderC1.policies = some rh
      ∧ RecipientHeader.derive_keys toyKEM rh (toyKEM.extractUsk 0 pid) = .ok 7 :=
  header_new_shared_secret_agreement toyKEM (fun _ => List.replicate 16 0) 0 0
    toyPolicies 7 (by simp [toyPolicies]) "alice" ⟨1700000000, []⟩
    (by simp [toyPolicies]) toyHeaderC1 7 rfl

/-! ### Serde round-trip lemmas (C3) -/

/-- Decoding an encoded list element-wise. -/
theorem decodeList_map (f : SValue → Except Error α) (g : α → SValue) :
    ∀ (l : List α), (∀ x ∈ l, f (g x) = .ok x) → decodeList f (l.map g) = .ok l := by
  intro l
  induction l with
  | nil => intro _; rfl
  | cons x xs ih =>
    intro h
    have hx := h x (by simp)
    have hxs := ih (fun y hy => h y (by simp [hy]))
    show Except.bind (f (g x))
        (fun a => Except.bind (decodeList f (xs.map g))
          (fun as => Except.ok (a :: as))) = Except.ok (x :: xs)
    rw [hx, hxs]
    rfl

/-- Hidden attributes round-trip through the data model. -/
theorem attr_roundtrip (a : HiddenAttribute) :
    attrFromValue (attrToValue a) = .ok a := by
  obtain ⟨t, hv⟩ := a
  cases hv <;> rfl

/-- Byte arrays of the declared length round-trip through the data
model. -/
theorem bytes_roundtrip (len : Nat) (bs : List Nat) (hlen : bs.length = len)
    (hlt : ∀ b ∈ bs, b < 256) :
    bytesFromValue len (bytesToValue bs) = .ok bs := by
  have hdec : decodeList byteFromValue (bs.map SValue.num) = .ok bs := by
    apply decodeList_map
    intro b hb
    simp only [byteFromValue]
    rw [if_pos (hlt b hb)]
  show Except.bind (decodeList byteFromValue (bs.map SValue.num))
      (fun bs2 => if bs2.length = len then Except.ok bs2
        else Except.error Error.FormatViolation) = Except.ok bs
  rw [hdec]
  show (if bs.length = len then Except.ok bs
    else Except.error Error.FormatViolation) = Except.ok bs
  rw [if_pos hlen]

/-- Hidden policies round-trip through the data model. -/
theorem hiddenPolicy_roundtrip (p : HiddenPolicy) :
    hiddenPolicyFromValue (hiddenPolicyToValue p) = .ok p := by
  obtain ⟨ts, con⟩ := p
  have h1 : hiddenPolicyFromValue (hiddenPolicyToValue ⟨ts, con⟩) =
      Except.bind (decodeList attrFromValue (con.map attrToValue))
        (fun con2 => Except.ok ⟨ts, con2⟩) := rfl
  rw [h1, decodeList_map attrFromValue attrToValue con (fun a _ => attr_roundtrip a)]
  rfl

/-- Recipient headers with a well-formed ciphertext round-trip through
the data model. -/
theorem recipient_roundtrip (CT_BYTES : Nat) (r : RecipientHeader)
    (hlen : r.ct.length = CT_BYTES) (hlt : ∀ b ∈ r.ct, b < 256) :
    recipientFromValue CT_BYTES (recipientToValue r) = .ok r := by
  obtain ⟨p, ct⟩ := r
  have h1 : recipientFromValue CT_BYTES (recipientToValue ⟨p, ct⟩) =
      Except.bind (hiddenPolicyFromValue (hiddenPolicyToValue p))
        (fun p2 => Except.bind (bytesFromValue CT_BYTES (bytesToValue ct))
          (fun ct2 => Except.ok ⟨p2, ct2⟩)) := rfl
  rw [h1, hiddenPolicy_roundtrip p, bytes_roundtrip CT_BYTES ct hlen hlt]
  rfl

/-- Well-formed algorithms round-trip through the data model. -/
theorem algo_roundtrip (a : Algorithm) (hwf : a.wfb = true) :
    algoFromValue (algoToValue a) = .ok a := by
  cases a with
  | Aes128Gcm iv =>
    simp only [Algorithm.wfb, Bool.and_eq_true, beq_iff_eq, List.all_eq_true,
      decide_eq_true_eq] at hwf
    have h1 : algoFromValue (algoToValue (.Aes128Gcm iv)) =
        Except.bind (bytesFromValue 16 (bytesToValue iv))
          (fun iv2 => Except.ok (.Aes128Gcm iv2)) := rfl
    rw [h1, bytes_roundtrip 16 iv hwf.1 hwf.2]
    rfl
  | XSalsa20Poly1305 iv =>
    simp only [Algorithm.wfb, Bool.and_eq_true, beq_iff_eq, List.all_eq_true,
      decide_eq_true_eq] at hwf
    have h1 : algoFromValue (algoToValue (.XSalsa20Poly1305 iv)) =
        Except.bind (bytesFromValue 24 (bytesToValue iv))
          (fun iv2 => Except.ok (.XSalsa20Poly1305 iv2)) := rfl
    rw [h1, bytes_roundtrip 24 iv hwf.1 hwf.2]
    rfl
  | Aes128Ocb iv =>
    simp only [Algorithm.wfb, Bool.and_eq_true, beq_iff_eq, List.all_eq_true,
      decide_eq_true_eq] at hwf
    have h1 : algoFromValue (algoToValue (.Aes128Ocb iv)) =
        Except.bind (bytesFromValue 12 (bytesToValue iv))
          (fun iv2 => Except.ok (.Aes128Ocb iv2)) := rfl
    rw [h1, bytes_roundtrip 12 iv hwf.1 hwf.2]
    rfl
  | Aegis128 iv =>
    simp only [Algorithm.wfb, Bool.and_eq_true, beq_iff_eq, List.all_eq_true,
      decide_eq_true_eq] at hwf
    have h1 : algoFromValue (algoToValue (.Aegis128 iv)) =
        Except.bind (bytesFromValue 16 (bytesToValue iv))
          (fun iv2 => Except.ok (.Aegis128 iv2)) := rfl
    rw [h1, bytes_roundtrip 16 iv hwf.1 hwf.2]
    rfl

/-- Modes round-trip through the data model. -/
theorem mode_roundtrip (m : Mode) : modeFromValue (modeToValue m) = .ok m := by
  cases m with
  | Streaming segmentSize sizeHint =>
    obtain ⟨lo, hi⟩ := sizeHint
    cases hi <;> rfl
  | InMemory size => rfl

/-- The rs map of well-formed recipient headers round-trips through the
data model. -/
theorem policies_roundtrip (CT_BYTES : Nat) :
    ∀ (l : List (String × RecipientHeader)),
      (∀ kv ∈ l, kv.2.ct.length = CT_BYTES ∧ ∀ b ∈ kv.2.ct, b < 256) →
      policiesFromFields CT_BYTES
        (l.map (fun kv => (SValue.str kv.1, recipientToValue kv.2))) = .ok l := by
  intro l
  induction l with
  | nil => intro _; rfl
  | cons kv tl ih =>
    intro h
    obtain ⟨k, rh⟩ := kv
    have hk := h (k, rh) (by simp)
    have h1 : policiesFromFields CT_BYTES
        (((k, rh) :: tl).map (fun kv => (SValue.str kv.1, recipientToValue kv.2))) =
        Except.bind (recipientFromValue CT_BYTES (recipientToValue rh))
          (fun rh2 => Except.bind (policiesFromFields CT_BYTES
              (tl.map (fun kv => (SValue.str kv.1, recipientToValue kv.2))))
            (fun tl2 => Except.ok ((k, rh2) :: tl2))) := rfl
    rw [h1, recipient_roundtrip CT_BYTES rh hk.1 hk.2,
      ih (fun kv2 hkv2 => h kv2 (by simp [hkv2]))]
    rfl

/-- Well-formed headers round-trip through the data model: the content
of the cross-encoding claim once the wire formats are factored out. -/
theorem header_value_roundtrip (CT_BYTES : Nat) (h : Header)
    (hwf : Header.wfb CT_BYTES h = true) :
    headerFromValue CT_BYTES (headerToValue h) = .ok h := by
  obtain ⟨pols, algo, mode⟩ := h
  simp only [Header.wfb, Bool.and_eq_true, List.all_eq_true, Bool.and_eq_true,
    beq_iff_eq, decide_eq_true_eq] at hwf
  have h1 : headerFromValue CT_BYTES (headerToValue ⟨pols, algo, mode⟩) =
      Except.bind (policiesFromFields CT_BYTES
          (pols.map (fun kv => (SValue.str kv.1, recipientToValue kv.2))))
        (fun pols2 => Except.bind (algoFromValue (algoToValue algo))
          (fun algo2 => Except.bind (modeFromValue (modeToValue mode))
            (fun mode2 => Except.ok ⟨pols2, algo2, mode2⟩))) := rfl
  rw [h1, policies_roundtrip CT_BYTES pols (fun kv hkv => hwf.1 kv hkv),
    algo_roundtrip algo hwf.2, mode_roundtrip mode]
  rfl

/-! ### C3: cross-encoding equivalence -/

/-- C3: for every wire format pair satisfying the crate round-trip
contract and every well-formed Header H, parsing the MessagePack
encoding of H yields H, parsing the JSON encoding of H yields H, and
transcoding the MessagePack encoding to JSON produces the same output as
encoding H to JSON directly. -/
theorem header_cross_encoding_equivalence {B S : Type}
    (F : WireFormat B) (J : WireFormat S) (CT_BYTES : Nat) (h : Header)
    (hwf : Header.wfb CT_BYTES h = true) :
    msgpack_from F CT_BYTES (msgpack_into F h) = .ok h
  ∧ from_json_string J CT_BYTES (to_json_string J h) = .ok h
  ∧ transcodeToJson F J (msgpack_into F h) = .ok (to_json_string J h) := by
  refine ⟨?_, ?_, ?_⟩
  · show Except.bind (F.dec (F.enc (headerToValue h)))
      (fun v => headerFromValue CT_BYTES v) = Except.ok h
    rw [F.dec_enc]
    show headerFromValue CT_BYTES (headerToValue h) = Except.ok h
    exact header_value_roundtrip CT_BYTES h hwf
  · show Except.bind (J.dec (J.enc (headerToValue h)))
      (fun v => headerFromValue CT_BYTES v) = Except.ok h
    rw [J.dec_enc]
    show headerFromValue CT_BYTES (headerToValue h) = Except.ok h
    exact header_value_roundtrip CT_BYTES h hwf
  · show Except.bind (F.dec (F.enc (headerToValue h)))
      (fun v => Except.ok (J.enc v)) = Except.ok (J.enc (headerToValue h))
    rw [F.dec_enc]
    rfl

/-- Witness for C3: the identity wire format and a concrete two-field
header with a 3-byte ciphertext. -/
theorem header_cross_encoding_equivalence_witness :
    msgpack_from idFormat 3 (msgpack_into idFormat demoHeader) = .ok demoHeader
  ∧ transcodeToJson idFormat idFormat (msgpack_into idFormat demoHeader) =
      .ok (to_json_string idFormat demoHeader) :=
  ⟨(header_cross_encoding_equivalence idFormat idFormat 3 demoHeader (by rfl)).1,
   (header_cross_encoding_equivalence idFormat idFormat 3 demoHeader (by rfl)).2.2⟩

/-! ### Base64 codec lemmas (C7, C10) -/

/-- Decoding an encoded base64 symbol recovers its 6-bit value. -/
theorem b64DecodeChar_encodeChar : ∀ n, n < 64 →
    b64DecodeChar (b64EncodeChar n) = some n := by decide

/-- No base64 symbol is the padding character. -/
theorem b64EncodeChar_ne_pad : ∀ n, n < 64 → b64EncodeChar n ≠ '=' := by decide

/-- Strict padded base64 decoding of an encoding recovers the bytes. -/
theorem b64_decode_encode : ∀ (bs : List Nat), (∀ b ∈ bs, b < 256) →
    b64Decode (b64Encode bs) = some bs
  | [], _ => rfl
  | [a], h => by
    have ha : a < 256 := h a (by simp)
    have hd1 := b64DecodeChar_encodeChar (a / 4) (by omega)
    have hd2 := b64DecodeChar_encodeChar (a % 4 * 16) (by omega)
    simp only [b64Encode, b64Decode]
    rw [if_pos (by simp)]
    simp only [Option.bind_eq_bind, hd1, hd2, Option.some_bind]
    rw [if_pos (by omega)]
    simp only [Option.some.injEq, List.cons.injEq, and_true]
    omega
  | [a, b], h => by
    have ha : a < 256 := h a (by simp)
    have hb : b < 256 := h b (by simp)
    have hd1 := b64DecodeChar_encodeChar (a / 4) (by omega)
    have hd2 := b64DecodeChar_encodeChar (a % 4 * 16 + b / 16) (by omega)
    have hd3 := b64DecodeChar_encodeChar (b % 16 * 4) (by omega)
    simp only [b64Encode, b64Decode]
    rw [if_neg (by
      rintro ⟨-, h3, -⟩
      exact b64EncodeChar_ne_pad (b % 16 * 4) (by omega) h3)]
    rw [if_pos (by simp)]
    simp only [Option.bind_eq_bind, hd1, hd2, hd3, Option.some_bind]
    rw [if_pos (by omega)]
    simp only [Option.some.injEq, List.cons.injEq, and_true]
    constructor
    · omega
    · omega
  | a :: b :: c :: rest, h => by
    have ha : a < 256 := h a (by simp)
    have hb : b < 256 := h b (by simp)
    have hc : c < 256 := h c (by simp)
    have hd1 := b64DecodeChar_encodeChar (a / 4) (by omega)
    have hd2 := b64DecodeChar_encodeChar (a % 4 * 16 + b / 16) (by omega)
    have hd3 := b64DecodeChar_encodeChar (b % 16 * 4 + c / 64) (by omega)
    have hd4 := b64DecodeChar_encodeChar (c % 64) (by omega)
    have hrest := b64_decode_encode rest (fun x hx => h x (by simp [hx]))
    simp only [b64Encode, b64Decode]
    rw [if_neg (by
      rintro ⟨-, h3, -⟩
      exact b64EncodeChar_ne_pad (b % 16 * 4 + c / 64) (by omega) h3)]
    rw [if_neg (by
      rintro ⟨-, h4⟩
      exact b64EncodeChar_ne_pad (c % 64) (by omega) h4)]
    simp only [Option.bind_eq_bind, hd1, hd2, hd3, hd4, hrest, Option.some_bind]
    simp only [Option.some.injEq, List.cons.injEq, and_true]
    exact ⟨by omega, by omega, by omega⟩

/-- Decoding an encoding of exactly the buffer length fills the buffer
with the original bytes. -/
theorem b64DecodeInto_encode (len : Nat) (bs : List Nat) (hlen : bs.length = len)
    (hlt : ∀ b ∈ bs, b < 256) : b64DecodeInto len (b64Encode bs) = some bs := by
  simp only [b64DecodeInto, b64_decode_encode bs hlt]
  rw [if_pos (by omega)]
  simp [hlen]

/-! ### C7: artifact decoding failure behavior -/

/-- C7: artifact decoding (decode_pk / decode_usk) fails with a
FormatViolation-kind error when the base64 decoding into the fixed-length
scheme buffer fails (malformed padded base64 or over-long input)
or when the decoded buffer is not a valid group element; every error it
reports is of that kind, and in either failure case no key value is
produced. -/
theorem decode_artifact_failure_behavior {Pk Usk : Type} (A : KemArtifacts Pk Usk)
    (s : List Char) :
    (b64DecodeInto A.PK_BYTES s = none → decode_pk A s = .error .FormatViolation)
  ∧ (∀ buf, b64DecodeInto A.PK_BYTES s = some buf → A.pkFromBytes buf = none →
      decode_pk A s = .error .FormatViolation)
  ∧ (∀ e, decode_pk A s = .error e → e = .FormatViolation)
  ∧ ((b64DecodeInto A.PK_BYTES s = none ∨
      (∃ buf, b64DecodeInto A.PK_BYTES s = some buf ∧ A.pkFromBytes buf = none)) →
      ¬∃ pk, decode_pk A s = .ok pk)
  ∧ (b64DecodeInto A.USK_BYTES s = none → decode_usk A s = .error .FormatViolation)
  ∧ (∀ buf, b64DecodeInto A.USK_BYTES s = some buf → A.uskFromBytes buf = none →
      decode_usk A s = .error .FormatViolation)
  ∧ (∀ e, decode_usk A s = .error e → e = .FormatViolation)
  ∧ ((b64DecodeInto A.USK_BYTES s = none ∨
      (∃ buf, b64DecodeInto A.USK_BYTES s = some buf ∧ A.uskFromBytes buf = none)) →
      ¬∃ usk, decode_usk A s = .ok usk) := by
  refine ⟨?_, ?_, ?_, ?_, ?_, ?_, ?_, ?_⟩
  · intro hb
    simp [decode_pk, hb]
  · intro buf hb hf
    simp [decode_pk, hb, hf]
  · intro e he
    cases hb : b64DecodeInto A.PK_BYTES s with
    | none =>
      have hd : decode_pk A s = .error .FormatViolation := by simp [decode_pk, hb]
      rw [hd] at he
      simp at he
      exact he.symm
    | some buf =>
      cases hf : A.pkFromBytes buf with
      | none =>
        have hd : decode_pk A s = .error .FormatViolation := by simp [decode_pk, hb, hf]
        rw [hd] at he
        simp at he
        exact he.symm
      | some pk =>
        have hd : decode_pk A s = .ok pk := by simp [decode_pk, hb, hf]
        rw [hd] at he
        simp at he
  · rintro (hb | ⟨buf, hb, hf⟩) ⟨pk, hpk⟩
    · simp [decode_pk, hb] at hpk
    · simp [decode_pk, hb, hf] at hpk
  · intro hb
    simp [decode_usk, hb]
  · intro buf hb hf
    simp [decode_usk, hb, hf]
  · intro e he
    cases hb : b64DecodeInto A.USK_BYTES s with
    | none =>
      have hd : decode_usk A s = .error .FormatViolation := by simp [decode_usk, hb]
      rw [hd] at he
      simp at he
      exact he.symm
    | some buf =>
      cases hf : A.uskFromBytes buf with
      | none =>
        have hd : decode_usk A s = .error .FormatViolation := by simp [decode_usk, hb, hf]
        rw [hd] at he
        simp at he
        exact he.symm
      | some usk =>
        have hd : decode_usk A s = .ok usk := by simp [decode_usk, hb, hf]
        rw [hd] at he
        simp at he
  · rintro (hb | ⟨buf, hb, hf⟩) ⟨usk, husk⟩
    · simp [decode_usk, hb] at husk
    · simp [decode_usk, hb, hf] at husk

/-- Witness for C7: the one-character input "!" is not valid padded
base64, so decoding fails with FormatViolation. -/
theorem decode_artifact_failure_witness :
    decode_pk toyArtifacts ['!'] = .error .FormatViolation :=
  (decode_artifact_failure_behavior toyArtifacts ['!']).1 (by decide)

/-! ### C10: artifact encode-decode identity -/

/-- C10: for every valid public key and user secret key, serializing the
artifact to its padded base64 wire form and deserializing it back
succeeds and yields a key with the same canonical byte encoding. -/
theorem artifact_encode_decode_identity {Pk Usk : Type} (A : KemArtifacts Pk Usk)
    (pk : Pk) (usk : Usk) :
    (∃ pk2, decode_pk A (encode_pk A pk) = .ok pk2 ∧
      A.pkToBytes pk2 = A.pkToBytes pk)
  ∧ (∃ usk2, decode_usk A (encode_usk A usk) = .ok usk2 ∧
      A.uskToBytes usk2 = A.uskToBytes usk) := by
  constructor
  · obtain ⟨pk2, hdec, hbytes⟩ := A.pk_roundtrip pk
    refine ⟨pk2, ?_, hbytes⟩
    simp [decode_pk, encode_pk,
      b64DecodeInto_encode A.PK_BYTES (A.pkToBytes pk) (A.pk_bytes_length pk)
        (A.pk_bytes_lt pk),
      hdec]
  · obtain ⟨usk2, hdec, hbytes⟩ := A.usk_roundtrip usk
    refine ⟨usk2, ?_, hbytes⟩
    simp [decode_usk, encode_usk,
      b64DecodeInto_encode A.USK_BYTES (A.uskToBytes usk) (A.usk_bytes_length usk)
        (A.usk_bytes_lt usk),
      hdec]

/-- Witness for C10 on the concrete one-byte artifact scheme. -/
theorem artifact_encode_decode_identity_witness :
    ∃ pk2, decode_pk toyArtifacts (encode_pk toyArtifacts (65 : Fin 256)) = .ok pk2 ∧
      toyArtifacts.pkToBytes pk2 = toyArtifacts.pkToBytes (65 : Fin 256) :=
  (artifact_encode_decode_identity toyArtifacts (65 : Fin 256) (66 : Fin 256)).1

end Irmaseal
